import Mathlib

/-
  Verification development for the misinformation-countermeasures agent-based
  model (src/agent.py, src/model.py).

  Shallow embedding conventions:
  * Python sets of misinformation ids become `Finset ℕ` (ids are opaque).
  * Python floats become `ℚ` inside the user state machine (all operations
    used there are *, -, < which are exact), and `ℝ` for the retweet
    probability formula, which uses the natural logarithm.
  * `self.random.random()` draws are passed in explicitly as a `draw`
    parameter: each call of `receive_tweet` consumes at most one draw.
  * Calls back into the model (`model.user_retweet`, `model.record_retraction`,
    `model.deploy_countermeasure`) become an explicit list of emitted events.
-/

/-- Events a `UserAgent` reports back to the model during `receive_tweet`. -/
inductive ModelEvent where
  | retraction (user_id misinfo_id : ℕ)
  | retweet (user_id misinfo_id : ℕ)
deriving DecidableEq, Repr

/-- State of `UserAgent` (src/agent.py, class UserAgent): metadata fields,
the three dynamic sets, and the two derived behaviour parameters. -/
structure UserAgent where
  user_id : ℕ
  verified : Bool
  followers_count : ℤ
  received_misinfo : Finset ℕ
  retweeted_misinfo : Finset ℕ
  received_countermeasures : Finset ℕ
  retweet_probability : ℚ
  susceptibility_to_countermeasures : ℚ
deriving DecidableEq

/-- `UserAgent._consider_retweeting` (src/agent.py lines 63-75): decide whether
to retweet a misinformation tweet, given the uniform draw used for the
comparison `self.random.random() < rt_prob`. -/
def UserAgent.consider_retweeting (st : UserAgent) (misinfo_id : ℕ) (draw : ℚ) :
    UserAgent × List ModelEvent :=
  if misinfo_id ∈ st.retweeted_misinfo then
    (st, [])  -- Already retweeted
  else
    let rt_prob :=
      if misinfo_id ∈ st.received_countermeasures then
        st.retweet_probability * (1 - st.susceptibility_to_countermeasures)
      else
        st.retweet_probability
    if draw < rt_prob then
      ({ st with retweeted_misinfo := insert misinfo_id st.retweeted_misinfo },
        [ModelEvent.retweet st.user_id misinfo_id])
    else
      (st, [])

/-- `UserAgent.receive_tweet` (src/agent.py lines 50-61): process an incoming
tweet, either misinformation or a countermeasure.  `draw` is the single
uniform draw the call may consume (in the countermeasure branch the Python
`and` short-circuits, so the draw is only consulted when the membership test
succeeds, which the conjunction below reproduces). -/
def UserAgent.receive_tweet (st : UserAgent) (misinfo_id : ℕ)
    (is_countermeasure : Bool) (draw : ℚ) : UserAgent × List ModelEvent :=
  if is_countermeasure then
    let st1 := { st with
      received_countermeasures := insert misinfo_id st.received_countermeasures }
    if misinfo_id ∈ st1.retweeted_misinfo ∧
        draw < st1.susceptibility_to_countermeasures * 0.3 then
      ({ st1 with retweeted_misinfo := st1.retweeted_misinfo.erase misinfo_id },
        [ModelEvent.retraction st1.user_id misinfo_id])
    else
      (st1, [])
  else
    let st1 := { st with received_misinfo := insert misinfo_id st.received_misinfo }
    UserAgent.consider_retweeting st1 misinfo_id draw

/-- `UserAgent._calculate_retweet_probability`'s follower factor
(src/agent.py lines 41-43): `1.0`, lowered for users with followers. -/
noncomputable def follower_factor (followers_count : ℤ) : ℝ :=
  if 0 < followers_count then
    1 - min 0.5 (Real.log (1 + (followers_count : ℝ)) / 30)
  else
    1

/-- `UserAgent._calculate_retweet_probability` (src/agent.py lines 36-44):
base probability 0.1, scaled by 0.8 for verified users, times the follower
factor. -/
noncomputable def calculate_retweet_probability (verified : Bool)
    (followers_count : ℤ) : ℝ :=
  (if verified then 0.1 * 0.8 else 0.1) * follower_factor followers_count

/-
  Python dictionaries keyed by misinfo id become association lists with
  unduplicated keys.  Assignment `d[k] = v` updates the first (under key
  uniqueness: the only) binding in place, else appends at the end, exactly
  like insertion-ordered Python dicts; `del d[k]` drops the binding.
-/

/-- Keys of an association list, in order. -/
def dictKeys (d : List (ℕ × ℕ)) : List ℕ := d.map Prod.fst

/-- Python `d[k] = v` on an insertion-ordered dict. -/
def dictInsert (k v : ℕ) : List (ℕ × ℕ) → List (ℕ × ℕ)
  | [] => [(k, v)]
  | p :: rest => if p.1 = k then (k, v) :: rest else p :: dictInsert k v rest

/-- Python `del d[k]`. -/
def dictErase (k : ℕ) (d : List (ℕ × ℕ)) : List (ℕ × ℕ) :=
  d.filter (fun p => p.1 ≠ k)

/-- Python `d.get(k)` / `d[k]` read access. -/
def dictLookup (k : ℕ) : List (ℕ × ℕ) → Option ℕ
  | [] => none
  | p :: rest => if p.1 = k then some p.2 else dictLookup k rest

/-- The `settings` dict passed to `CountermeasureAgent.__init__`
(src/agent.py line 83), queried with `.get(key, default)`: embedded as
optional fields, `none` meaning the key is absent. -/
structure CMSettings where
  activation_threshold : Option ℚ := none
  target_threshold : Option ℚ := none
  delay : Option ℕ := none
  coverage_ratio : Option ℚ := none
deriving DecidableEq

/-- State of `CountermeasureAgent` (src/agent.py lines 82-101).  The
type-specific parameters are `Option`-valued because Python only assigns the
attributes in the branch for the matching countermeasure type; `none` models
an attribute that was never set. -/
structure CountermeasureAgent where
  type : String
  activation_threshold : Option ℚ
  target_threshold : Option ℚ
  delay : Option ℕ
  coverage_ratio : Option ℚ
  active_countermeasures : List (ℕ × ℕ)
  pending_countermeasures : List (ℕ × ℕ)
deriving DecidableEq

/-- `CountermeasureAgent.__init__` (src/agent.py lines 83-101): parameter
initialization happens only in the branch matching the countermeasure type;
an unrecognized type falls through every branch and the agent is still
constructed, with no parameters set. -/
def CountermeasureAgent.init (countermeasure_type : String)
    (settings : CMSettings) : CountermeasureAgent :=
  let base : CountermeasureAgent :=
    { type := countermeasure_type
      activation_threshold := none
      target_threshold := none
      delay := none
      coverage_ratio := none
      active_countermeasures := []
      pending_countermeasures := [] }
  if countermeasure_type = "key_node" then
    { base with
        activation_threshold := some (settings.activation_threshold.getD (1/10))
        target_threshold := some (settings.target_threshold.getD 100000) }
  else if countermeasure_type = "fact_check" then
    { base with
        activation_threshold := some (settings.activation_threshold.getD 50)
        delay := some (settings.delay.getD 30) }
  else if countermeasure_type = "early_warning" then
    { base with
        activation_threshold := some (settings.activation_threshold.getD 10)
        coverage_ratio := some (Option.getD ( CMSettings.coverage_ratio settings) (3/10)) }
  else
    base

/-- `CountermeasureAgent.activate_countermeasure` (src/agent.py lines
103-111).  The returned list holds the ids passed to
`model.deploy_countermeasure`.  (`a.delay.getD 0` reads the `delay`
attribute; on every state built by `init "fact_check" _` it is present.) -/
def CountermeasureAgent.activate_countermeasure (a : CountermeasureAgent)
    (misinfo_id current_step : ℕ) : CountermeasureAgent × List ℕ :=
  if a.type = "fact_check" then
    ({ a with pending_countermeasures := dictInsert misinfo_id (current_step + a.delay.getD 0) a.pending_countermeasures }, [])
  else
    ({ a with active_countermeasures := dictInsert misinfo_id current_step a.active_countermeasures }, [misinfo_id])

/-- `CountermeasureAgent.step` (src/agent.py lines 113-123): collect every
pending id whose scheduled tick has arrived, record it as active at the
current tick, delete it from pending, and deploy it.  `current_step` is the
value the Python code reads from the model
(`getattr(self.model, "step_count", 0)`). -/
def CountermeasureAgent.step (a : CountermeasureAgent) (current_step : ℕ) :
    CountermeasureAgent × List ℕ :=
  let to_activate :=
    (a.pending_countermeasures.filter
      (fun p => current_step ≥ p.2)).map Prod.fst
  ({ a with
      active_countermeasures :=
        to_activate.foldl (fun acc m => dictInsert m current_step acc)
          a.active_countermeasures
      pending_countermeasures :=
        to_activate.foldl (fun acc m => dictErase m acc)
          a.pending_countermeasures },
    to_activate)

/-- One externally triggered operation on a countermeasure controller:
either the engine calls `activate_countermeasure`, or the per-tick
`step` advance runs at a given model tick. -/
inductive CMOp where
  | activate (misinfo_id current_step : ℕ)
  | tick (current_step : ℕ)
deriving DecidableEq, Repr

def applyOp (a : CountermeasureAgent) : CMOp → CountermeasureAgent × List ℕ
  | CMOp.activate m t => a.activate_countermeasure m t
  | CMOp.tick t => a.step t

/-- Run a sequence of operations, accumulating every id handed to
`model.deploy_countermeasure`. -/
def cmRun (a : CountermeasureAgent) (deployed : List ℕ) :
    List CMOp → CountermeasureAgent × List ℕ
  | [] => (a, deployed)
  | op :: rest => cmRun (applyOp a op).1 (deployed ++ (applyOp a op).2) rest

/-- A trace is legal when `activate_countermeasure` is only invoked for a
misinfo id that is neither pending nor active — the trigger discipline the
engine is specified to maintain (each controller fires at most once per id). -/
def legalTrace (a : CountermeasureAgent) : List CMOp → Bool
  | [] => true
  | op :: rest =>
    (match op with
     | CMOp.activate m _ =>
        !(decide (m ∈ dictKeys a.pending_countermeasures)) &&
          !(decide (m ∈ dictKeys a.active_countermeasures))
     | CMOp.tick _ => true) && legalTrace (applyOp a op).1 rest

/-- Controller invariant: pending and active keys are unduplicated and
disjoint, and ids deployed so far are pairwise distinct and all recorded
active. -/
def CMInv (a : CountermeasureAgent) (deployed : List ℕ) : Prop :=
  (dictKeys a.pending_countermeasures).Nodup ∧
  (dictKeys a.active_countermeasures).Nodup ∧
  (∀ m ∈ dictKeys a.pending_countermeasures,
      m ∉ dictKeys a.active_countermeasures) ∧
  deployed.Nodup ∧
  (∀ m ∈ deployed, m ∈ dictKeys a.active_countermeasures)

/-- Run only per-tick `step` advances at the given ticks, collecting each
deployment as a `(tick, misinfo_id)` pair. -/
def stepsRun (a : CountermeasureAgent) : List ℕ → CountermeasureAgent × List (ℕ × ℕ)
  | [] => (a, [])
  | t :: ts =>
    ((stepsRun (a.step t).1 ts).1,
      (a.step t).2.map (fun m => (t, m)) ++ (stepsRun (a.step t).1 ts).2)

/-
  MisinformationModel (src/model.py): the tweet schedule and the per-tick
  dispatch loop.  A timeline record carries its `time_since_start` in seconds
  (an integer here; Python `int(x / 60)` truncates toward zero, which is
  `Int.div` on integer seconds) and an opaque record identity standing for
  the remaining tweet fields.
-/

/-- One record of `tweets_timeline` as the scheduler uses it. -/
structure TweetRec where
  time_since_start : ℤ
  misinfo_id : ℕ
deriving DecidableEq, Repr

/-- Ordering of timeline records used by
`tweets_timeline.sort_values('time_since_start')`. -/
def tweetLE (a b : TweetRec) : Prop := a.time_since_start ≤ b.time_since_start

instance : DecidableRel tweetLE := fun a b =>
  inferInstanceAs (Decidable (a.time_since_start ≤ b.time_since_start))

instance : IsTotal TweetRec tweetLE :=
  ⟨fun a b => le_total a.time_since_start b.time_since_start⟩

instance : IsTrans TweetRec tweetLE :=
  ⟨fun _ _ _ hab hbc => le_trans hab hbc⟩

/-- `MisinformationModel._schedule_tweets` (src/model.py lines 105-113):
sort the timeline by `time_since_start`, then pair each record with its tick
`int(time_since_start / time_unit)` where `time_unit = 60` (line 19). -/
def schedule_tweets (tweets_timeline : List TweetRec) : List (ℤ × TweetRec) :=
  (List.insertionSort tweetLE tweets_timeline).map
    (fun tweet => (Int.tdiv tweet.time_since_start 60, tweet))

/-- The dispatch loop of `MisinformationModel.step` (src/model.py lines
117-121): every scheduled record whose tick is `≤ current_step` is processed
and removed from the schedule; the rest stay, in order.  (The Python loop
iterates over a copy and calls `list.remove`, which deletes the first
occurrence equal by value; since whether a record is due is a function of its
value, the processed/remaining multisets are exactly this partition.)
Returns (dispatched records in dispatch order, remaining schedule). -/
def model_step_dispatch (current_step : ℤ) :
    List (ℤ × TweetRec) → List (ℤ × TweetRec) × List (ℤ × TweetRec)
  | [] => ([], [])
  | e :: rest =>
    if e.1 ≤ current_step then
      ((model_step_dispatch current_step rest).1.cons e,
        (model_step_dispatch current_step rest).2)
    else
      ((model_step_dispatch current_step rest).1,
        (model_step_dispatch current_step rest).2.cons e)

/-- The probability a misinformation delivery is shared with: the stored
retweet probability, scaled by `1 - susceptibility` when a countermeasure for
the same id has been received (src/agent.py lines 69-71). -/
def UserAgent.effective_prob (st : UserAgent) (misinfo_id : ℕ) : ℚ :=
  if misinfo_id ∈ st.received_countermeasures then
    st.retweet_probability * (1 - st.susceptibility_to_countermeasures)
  else
    st.retweet_probability

/-- A countermeasure delivery retracts exactly when the id was already
retweeted and the draw is below `susceptibility * 0.3` (src/agent.py line 56). -/
def UserAgent.retracts (st : UserAgent) (misinfo_id : ℕ) (draw : ℚ) : Prop :=
  misinfo_id ∈ st.retweeted_misinfo ∧
    draw < st.susceptibility_to_countermeasures * 0.3

instance (st : UserAgent) (misinfo_id : ℕ) (draw : ℚ) :
    Decidable (st.retracts misinfo_id draw) :=
  inferInstanceAs (Decidable (_ ∧ _))

/-- A misinformation delivery is newly shared exactly when the id was not
already retweeted and the draw is below the effective probability
(src/agent.py lines 66-73). -/
def UserAgent.shares (st : UserAgent) (misinfo_id : ℕ) (draw : ℚ) : Prop :=
  misinfo_id ∉ st.retweeted_misinfo ∧ draw < st.effective_prob misinfo_id

instance (st : UserAgent) (misinfo_id : ℕ) (draw : ℚ) :
    Decidable (st.shares misinfo_id draw) :=
  inferInstanceAs (Decidable (_ ∧ _))

theorem receive_tweet_true_eq (st : UserAgent) (m : ℕ) (draw : ℚ) :
    st.receive_tweet m true draw =
      (if st.retracts m draw then
        ({ st with
            received_countermeasures := insert m st.received_countermeasures,
            retweeted_misinfo := st.retweeted_misinfo.erase m },
          [ModelEvent.retraction st.user_id m])
      else
        ({ st with
            received_countermeasures := insert m st.received_countermeasures },
          [])) := by
  simp only [UserAgent.receive_tweet, UserAgent.retracts]
  split_ifs <;> rfl

theorem receive_tweet_false_eq (st : UserAgent) (m : ℕ) (draw : ℚ) :
    st.receive_tweet m false draw =
      (if st.shares m draw then
        ({ st with
            received_misinfo := insert m st.received_misinfo,
            retweeted_misinfo := insert m st.retweeted_misinfo },
          [ModelEvent.retweet st.user_id m])
      else
        ({ st with received_misinfo := insert m st.received_misinfo },
          [])) := by
  simp only [UserAgent.receive_tweet, UserAgent.consider_retweeting,
    UserAgent.shares, UserAgent.effective_prob]
  split_ifs <;> first | rfl | tauto

/-- C1: `receive_tweet` preserves the invariant
`retweeted_misinfo ⊆ received_misinfo`, for either kind of delivery and any
random draw (hence the invariant holds after every tick). -/
theorem receive_tweet_preserves_share_subset
    (st : UserAgent) (misinfo_id : ℕ) (is_countermeasure : Bool) (draw : ℚ)
    (h : st.retweeted_misinfo ⊆ st.received_misinfo) :
    (st.receive_tweet misinfo_id is_countermeasure draw).1.retweeted_misinfo ⊆
      (st.receive_tweet misinfo_id is_countermeasure draw).1.received_misinfo := by
  cases is_countermeasure with
  | true =>
    rw [receive_tweet_true_eq]
    split_ifs
    · exact fun x hx => h (Finset.mem_of_mem_erase hx)
    · exact h
  | false =>
    rw [receive_tweet_false_eq]
    split_ifs
    · intro x hx
      rcases Finset.mem_insert.mp hx with hx | hx
      · exact hx ▸ Finset.mem_insert_self misinfo_id st.received_misinfo
      · exact Finset.mem_insert_of_mem (h hx)
    · exact fun x hx => Finset.mem_insert_of_mem (h hx)

/-- C3: a misinformation delivery adds the id to `received_misinfo`; if the id
was already retweeted nothing else changes (sharing is idempotent); otherwise
the effective probability is the stored retweet probability, scaled by
`1 - susceptibility` exactly when a countermeasure for the id was received,
and the id is added to `retweeted_misinfo` with a share notification exactly
when the draw is below that probability. -/
theorem misinfo_delivery_behavior (st : UserAgent) (m : ℕ) (draw : ℚ) :
    (st.receive_tweet m false draw).1.received_misinfo
        = insert m st.received_misinfo
    ∧ (m ∈ st.retweeted_misinfo →
        (st.receive_tweet m false draw).1
            = { st with received_misinfo := insert m st.received_misinfo }
          ∧ (st.receive_tweet m false draw).2 = [])
    ∧ (m ∈ st.received_countermeasures →
        st.effective_prob m
          = st.retweet_probability * (1 - st.susceptibility_to_countermeasures))
    ∧ (m ∉ st.received_countermeasures →
        st.effective_prob m = st.retweet_probability)
    ∧ (m ∉ st.retweeted_misinfo →
        ((m ∈ (st.receive_tweet m false draw).1.retweeted_misinfo
            ∧ (st.receive_tweet m false draw).2
                = [ModelEvent.retweet st.user_id m])
          ↔ draw < st.effective_prob m)) := by
  rw [receive_tweet_false_eq]
  refine ⟨?_, ?_, ?_, ?_, ?_⟩
  · split_ifs <;> rfl
  · intro hm
    rw [if_neg (fun hs => hs.1 hm)]
    exact ⟨rfl, rfl⟩
  · intro hm
    simp [UserAgent.effective_prob, hm]
  · intro hm
    simp [UserAgent.effective_prob, hm]
  · intro hm
    constructor
    · intro hshare
      by_contra hdraw
      rw [if_neg (fun hs => hdraw hs.2)] at hshare
      exact hm hshare.1
    · intro hdraw
      rw [if_pos ⟨hm, hdraw⟩]
      exact ⟨Finset.mem_insert_self m st.retweeted_misinfo, rfl⟩

/-- C3 witness: the theorem applied to concrete agents, covering the
idempotent branch, both effective-probability cases and the sharing case. -/
theorem misinfo_delivery_behavior_witness :
    ((UserAgent.receive_tweet ⟨0, false, 0, {3}, {3}, ∅, 1/10, 1/2⟩ 3 false 0).1
        = { (⟨0, false, 0, {3}, {3}, ∅, 1/10, 1/2⟩ : UserAgent) with
            received_misinfo :=
              insert 3 (UserAgent.received_misinfo
                ⟨0, false, 0, {3}, {3}, ∅, 1/10, 1/2⟩) }
      ∧ (UserAgent.receive_tweet
          ⟨0, false, 0, {3}, {3}, ∅, 1/10, 1/2⟩ 3 false 0).2 = [])
    ∧ UserAgent.effective_prob ⟨0, false, 0, ∅, ∅, {3}, 1/10, 1/2⟩ 3
        = 1/10 * (1 - 1/2)
    ∧ UserAgent.effective_prob ⟨0, false, 0, ∅, ∅, ∅, 1/10, 1/2⟩ 3 = 1/10
    ∧ ((3 ∈ (UserAgent.receive_tweet
            ⟨0, false, 0, ∅, ∅, ∅, 1/10, 1/2⟩ 3 false 0).1.retweeted_misinfo
        ∧ (UserAgent.receive_tweet
            ⟨0, false, 0, ∅, ∅, ∅, 1/10, 1/2⟩ 3 false 0).2
            = [ModelEvent.retweet 0 3])
      ↔ (0 : ℚ) < UserAgent.effective_prob ⟨0, false, 0, ∅, ∅, ∅, 1/10, 1/2⟩ 3) :=
  ⟨(misinfo_delivery_behavior ⟨0, false, 0, {3}, {3}, ∅, 1/10, 1/2⟩ 3 0).2.1
      (by decide),
    (misinfo_delivery_behavior ⟨0, false, 0, ∅, ∅, {3}, 1/10, 1/2⟩ 3 0).2.2.1
      (by decide),
    (misinfo_delivery_behavior ⟨0, false, 0, ∅, ∅, ∅, 1/10, 1/2⟩ 3 0).2.2.2.1
      (by decide),
    (misinfo_delivery_behavior ⟨0, false, 0, ∅, ∅, ∅, 1/10, 1/2⟩ 3 0).2.2.2.2
      (by decide)⟩

/-- C4: a countermeasure delivery adds the id to `received_countermeasures`,
removes it from `retweeted_misinfo` with a retraction record exactly when it
was retweeted and the draw is below `susceptibility * 0.3`, and this is the
only path that ever removes an element from `retweeted_misinfo`. -/
theorem countermeasure_delivery_behavior (st : UserAgent) (m : ℕ) (draw : ℚ) :
    (st.receive_tweet m true draw).1.received_countermeasures
        = insert m st.received_countermeasures
    ∧ (((st.receive_tweet m true draw).1.retweeted_misinfo
          = st.retweeted_misinfo.erase m
        ∧ (st.receive_tweet m true draw).2
            = [ModelEvent.retraction st.user_id m])
      ↔ st.retracts m draw)
    ∧ (∀ (is_countermeasure : Bool) (x : ℕ),
        x ∈ st.retweeted_misinfo →
        x ∉ (st.receive_tweet m is_countermeasure draw).1.retweeted_misinfo →
        is_countermeasure = true ∧ x = m ∧ st.retracts m draw)
    ∧ (∀ (is_countermeasure : Bool) (u i : ℕ),
        ModelEvent.retraction u i ∈ (st.receive_tweet m is_countermeasure draw).2 →
        is_countermeasure = true ∧ i = m ∧ m ∈ st.retweeted_misinfo ∧
          m ∉ (st.receive_tweet m is_countermeasure draw).1.retweeted_misinfo) := by
  refine ⟨?_, ?_, ?_, ?_⟩
  · rw [receive_tweet_true_eq]
    split_ifs <;> rfl
  · rw [receive_tweet_true_eq]
    constructor
    · intro hr
      by_contra hn
      rw [if_neg hn] at hr
      exact List.cons_ne_nil _ _ hr.2.symm
    · intro hr
      rw [if_pos hr]
      exact ⟨rfl, rfl⟩
  · intro b x hx hnx
    cases b with
    | true =>
      rw [receive_tweet_true_eq] at hnx
      by_cases hr : st.retracts m draw
      · rw [if_pos hr] at hnx
        refine ⟨rfl, ?_, hr⟩
        by_contra hxm
        exact hnx (Finset.mem_erase.mpr ⟨hxm, hx⟩)
      · rw [if_neg hr] at hnx
        exact absurd hx hnx
    | false =>
      exfalso
      rw [receive_tweet_false_eq] at hnx
      split_ifs at hnx
      · exact hnx (Finset.mem_insert_of_mem hx)
      · exact hnx hx
  · intro b u i hev
    cases b with
    | true =>
      rw [receive_tweet_true_eq] at hev ⊢
      by_cases hr : st.retracts m draw
      · rw [if_pos hr] at hev ⊢
        rcases List.mem_singleton.mp hev with hev
        refine ⟨rfl, by injection hev, hr.1, ?_⟩
        exact fun hc => (Finset.mem_erase.mp hc).1 rfl
      · rw [if_neg hr] at hev
        exact absurd hev (List.not_mem_nil _)
    | false =>
      exfalso
      rw [receive_tweet_false_eq] at hev
      split_ifs at hev
      · rcases List.mem_singleton.mp hev with hev
        exact ModelEvent.noConfusion hev
      · exact List.not_mem_nil _ hev

/-- C4 witness: the theorem applied to a concrete agent that retweeted id 3
and retracts it on a countermeasure delivery with a low draw. -/
theorem countermeasure_delivery_behavior_witness :
    (UserAgent.receive_tweet ⟨0, false, 0, {3}, {3}, ∅, 1/10, 1/2⟩ 3 true 0).1.received_countermeasures
        = insert 3 (∅ : Finset ℕ)
    ∧ ((UserAgent.receive_tweet ⟨0, false, 0, {3}, {3}, ∅, 1/10, 1/2⟩ 3 true 0).1.retweeted_misinfo
          = ({3} : Finset ℕ).erase 3
        ∧ (UserAgent.receive_tweet ⟨0, false, 0, {3}, {3}, ∅, 1/10, 1/2⟩ 3 true 0).2
          = [ModelEvent.retraction 0 3])
    ∧ (true = true ∧ 3 = 3 ∧
        UserAgent.retracts ⟨0, false, 0, {3}, {3}, ∅, 1/10, 1/2⟩ 3 0) := by
  have hretr : UserAgent.retracts ⟨0, false, 0, {3}, {3}, ∅, 1/10, 1/2⟩ 3 0 :=
    ⟨by decide, show (0 : ℚ) < 1/2 * 0.3 by norm_num⟩
  have h := countermeasure_delivery_behavior
    ⟨0, false, 0, {3}, {3}, ∅, 1/10, 1/2⟩ 3 0
  refine ⟨h.1, h.2.1.mpr hretr, ?_⟩
  refine h.2.2.1 true 3 (by decide) ?_
  rw [receive_tweet_true_eq, if_pos hretr]
  decide

/-- C10: frame property of `receive_tweet`: a countermeasure delivery never
changes `received_misinfo`, a misinformation delivery never changes
`received_countermeasures`, and no invocation changes the derived
probabilities or the static attributes. -/
theorem receive_tweet_frame (st : UserAgent) (m : ℕ) (draw : ℚ) :
    (st.receive_tweet m true draw).1.received_misinfo = st.received_misinfo
    ∧ (st.receive_tweet m false draw).1.received_countermeasures
        = st.received_countermeasures
    ∧ ∀ is_countermeasure : Bool,
        (st.receive_tweet m is_countermeasure draw).1.retweet_probability
            = st.retweet_probability
        ∧ (st.receive_tweet m is_countermeasure draw).1.susceptibility_to_countermeasures
            = st.susceptibility_to_countermeasures
        ∧ (st.receive_tweet m is_countermeasure draw).1.verified = st.verified
        ∧ (st.receive_tweet m is_countermeasure draw).1.followers_count
            = st.followers_count
        ∧ (st.receive_tweet m is_countermeasure draw).1.user_id = st.user_id := by
  refine ⟨?_, ?_, ?_⟩
  · rw [receive_tweet_true_eq]; split_ifs <;> rfl
  · rw [receive_tweet_false_eq]; split_ifs <;> rfl
  · intro b
    cases b with
    | true =>
      rw [receive_tweet_true_eq]
      split_ifs <;> exact ⟨rfl, rfl, rfl, rfl, rfl⟩
    | false =>
      rw [receive_tweet_false_eq]
      split_ifs <;> exact ⟨rfl, rfl, rfl, rfl, rfl⟩

/-- C7: `retweet_probability` equals
`0.1 * (0.8 if verified else 1.0) * follower_factor`; the follower factor
always lies in `[0.5, 1]`, so the probability lies in `[0, 1]`, and an
unverified user with 2,000,000 followers has a strictly smaller probability
than an unverified user with 10 followers. -/
theorem retweet_probability_formula (verified : Bool) (followers_count : ℤ) :
    calculate_retweet_probability verified followers_count
        = 0.1 * (if verified then 0.8 else 1.0) * follower_factor followers_count
    ∧ 0.5 ≤ follower_factor followers_count
    ∧ follower_factor followers_count ≤ 1
    ∧ 0 ≤ calculate_retweet_probability verified followers_count
    ∧ calculate_retweet_probability verified followers_count ≤ 1
    ∧ calculate_retweet_probability false 2000000
        < calculate_retweet_probability false 10 := by
  have hfactor : ∀ n : ℤ, 0.5 ≤ follower_factor n ∧ follower_factor n ≤ 1 := by
    intro n
    unfold follower_factor
    split_ifs with hn
    · have hlog : (0 : ℝ) ≤ Real.log (1 + (n : ℝ)) := by
        apply Real.log_nonneg
        have : (1 : ℝ) ≤ (n : ℝ) := by exact_mod_cast hn
        linarith
      have hmin_le : min (0.5 : ℝ) (Real.log (1 + (n : ℝ)) / 30) ≤ 0.5 :=
        min_le_left _ _
      have hmin_nonneg : (0 : ℝ) ≤ min 0.5 (Real.log (1 + (n : ℝ)) / 30) :=
        le_min (by norm_num) (by positivity)
      constructor <;> linarith
    · norm_num
  have hbase : ∀ v : Bool,
      (0 : ℝ) < (if v then (0.1 : ℝ) * 0.8 else 0.1) ∧
        (if v then (0.1 : ℝ) * 0.8 else 0.1) ≤ 0.1 := by
    intro v
    cases v <;> norm_num
  have hcmp : calculate_retweet_probability false 2000000
      < calculate_retweet_probability false 10 := by
    have e10 : (1 : ℝ) + ((10 : ℤ) : ℝ) = 11 := by norm_num
    have e2M : (1 : ℝ) + ((2000000 : ℤ) : ℝ) = 2000001 := by norm_num
    have h11 : Real.log 11 < 15 := by
      rw [Real.log_lt_iff_lt_exp (by norm_num)]
      have := Real.add_one_le_exp (15 : ℝ)
      linarith
    have hmono : Real.log 11 < Real.log 2000001 := by
      apply Real.log_lt_log (by norm_num)
      norm_num
    have hlt : Real.log 11 / 30 < min (0.5 : ℝ) (Real.log 2000001 / 30) := by
      apply lt_min
      · linarith
      · linarith
    have hsmall : min (0.5 : ℝ) (Real.log 11 / 30) = Real.log 11 / 30 := by
      apply min_eq_right
      linarith
    have hff : follower_factor 2000000 < follower_factor 10 := by
      unfold follower_factor
      rw [if_pos (by norm_num : (0 : ℤ) < 2000000),
        if_pos (by norm_num : (0 : ℤ) < 10), e10, e2M, hsmall]
      linarith
    unfold calculate_retweet_probability
    simp only [if_neg Bool.false_ne_true]
    nlinarith [hff, (hfactor 2000000).1, (hfactor 10).2]
  refine ⟨?_, (hfactor followers_count).1, (hfactor followers_count).2, ?_, ?_, hcmp⟩
  · unfold calculate_retweet_probability
    cases verified <;> norm_num
  · unfold calculate_retweet_probability
    have h1 := hbase verified
    have h2 := hfactor followers_count
    nlinarith [h1.1, h1.2, h2.1, h2.2]
  · unfold calculate_retweet_probability
    have h1 := hbase verified
    have h2 := hfactor followers_count
    nlinarith [h1.1, h1.2, h2.1, h2.2]

/-- C1 witness: the preservation theorem evaluated at a concrete agent. -/
theorem receive_tweet_preserves_share_subset_witness :
    (UserAgent.receive_tweet
        ⟨0, false, 0, {1}, {1}, ∅, 1/10, 1/2⟩ 1 true (1/10)).1.retweeted_misinfo ⊆
      (UserAgent.receive_tweet
        ⟨0, false, 0, {1}, {1}, ∅, 1/10, 1/2⟩ 1 true (1/10)).1.received_misinfo :=
  receive_tweet_preserves_share_subset
    ⟨0, false, 0, {1}, {1}, ∅, 1/10, 1/2⟩ 1 true (1/10) (by decide)

/-
  Association-list dictionary lemmas.
-/

theorem dictKeys_cons (p : ℕ × ℕ) (rest : List (ℕ × ℕ)) :
    dictKeys (p :: rest) = p.1 :: dictKeys rest := rfl

theorem mem_dictKeys (m : ℕ) (d : List (ℕ × ℕ)) :
    m ∈ dictKeys d ↔ ∃ v, (m, v) ∈ d := by
  unfold dictKeys
  constructor
  · intro h
    rcases List.mem_map.mp h with ⟨p, hp, rfl⟩
    exact ⟨p.2, hp⟩
  · rintro ⟨v, hv⟩
    exact List.mem_map.mpr ⟨(m, v), hv, rfl⟩

theorem mem_dictKeys_dictInsert (m k v : ℕ) (d : List (ℕ × ℕ)) :
    m ∈ dictKeys (dictInsert k v d) ↔ m = k ∨ m ∈ dictKeys d := by
  induction d with
  | nil => simp [dictInsert, dictKeys]
  | cons p rest ih =>
    by_cases hp : p.1 = k
    · rw [dictInsert, if_pos hp, dictKeys_cons, dictKeys_cons]
      subst hp
      simp [List.mem_cons]
    · rw [dictInsert, if_neg hp, dictKeys_cons, dictKeys_cons,
        List.mem_cons, List.mem_cons, ih]
      tauto

theorem nodup_dictKeys_dictInsert (k v : ℕ) (d : List (ℕ × ℕ))
    (h : (dictKeys d).Nodup) : (dictKeys (dictInsert k v d)).Nodup := by
  induction d with
  | nil => simp [dictInsert, dictKeys]
  | cons p rest ih =>
    rw [dictKeys_cons, List.nodup_cons] at h
    by_cases hp : p.1 = k
    · rw [dictInsert, if_pos hp, dictKeys_cons, List.nodup_cons]
      exact ⟨by simpa [hp] using h.1, h.2⟩
    · rw [dictInsert, if_neg hp, dictKeys_cons, List.nodup_cons]
      refine ⟨fun hc => ?_, ih h.2⟩
      rcases (mem_dictKeys_dictInsert p.1 k v rest).mp hc with he | hm
      · exact hp he
      · exact h.1 hm

theorem dictLookup_dictInsert (m k v : ℕ) (d : List (ℕ × ℕ)) :
    dictLookup m (dictInsert k v d)
      = if m = k then some v else dictLookup m d := by
  induction d with
  | nil =>
    rcases eq_or_ne m k with h | h
    · subst h
      simp [dictInsert, dictLookup]
    · simp [dictInsert, dictLookup, h, Ne.symm h]
  | cons p rest ih =>
    by_cases hp : p.1 = k
    · rw [dictInsert, if_pos hp]
      rcases eq_or_ne m k with h | h
      · subst h
        simp [dictLookup, hp]
      · simp only [dictLookup]
        rw [if_neg (fun hh : k = m => h hh.symm), if_neg h,
          if_neg (fun hh : p.1 = m => h (hp ▸ hh).symm)]
    · rw [dictInsert, if_neg hp]
      rcases eq_or_ne m k with h | h
      · subst h
        simp only [dictLookup]
        rw [if_neg hp, ih]
        simp
      · simp only [dictLookup]
        rw [ih, if_neg h, if_neg h]

theorem dictLookup_eq_none (m : ℕ) (d : List (ℕ × ℕ)) :
    dictLookup m d = none ↔ m ∉ dictKeys d := by
  induction d with
  | nil => simp [dictLookup, dictKeys]
  | cons p rest ih =>
    rw [dictKeys_cons, List.mem_cons, dictLookup]
    by_cases hp : p.1 = m
    · simp [hp]
    · simp only [if_neg hp, ih]
      constructor
      · intro h hc
        rcases hc with hc | hc
        · exact hp hc.symm
        · exact h hc
      · intro h hc
        exact h (Or.inr hc)

theorem mem_of_dictLookup_eq_some (m s : ℕ) (d : List (ℕ × ℕ))
    (h : dictLookup m d = some s) : (m, s) ∈ d := by
  induction d with
  | nil => simp [dictLookup] at h
  | cons p rest ih =>
    rw [dictLookup] at h
    by_cases hp : p.1 = m
    · rw [if_pos hp] at h
      injection h with h2
      have hps : p = (m, s) := Prod.ext hp h2
      rw [← hps]
      exact List.mem_cons_self p rest
    · rw [if_neg hp] at h
      exact List.mem_cons_of_mem _ (ih h)

theorem dictLookup_eq_some_of_mem_nodup (m s : ℕ) (d : List (ℕ × ℕ))
    (hnd : (dictKeys d).Nodup) (h : (m, s) ∈ d) : dictLookup m d = some s := by
  induction d with
  | nil => simp at h
  | cons p rest ih =>
    rw [dictKeys_cons, List.nodup_cons] at hnd
    rcases List.mem_cons.mp h with h | h
    · rw [dictLookup, if_pos (congrArg Prod.fst h.symm)]
      exact congrArg (some ∘ Prod.snd) h.symm
    · rw [dictLookup]
      have hp : p.1 ≠ m := by
        intro hc
        exact hnd.1 ((mem_dictKeys m rest).mpr ⟨s, h⟩ |> (hc ▸ ·))
      rw [if_neg hp]
      exact ih hnd.2 h

theorem mem_dictErase (q : ℕ × ℕ) (k : ℕ) (d : List (ℕ × ℕ)) :
    q ∈ dictErase k d ↔ q ∈ d ∧ q.1 ≠ k := by
  unfold dictErase
  simp [List.mem_filter]

theorem mem_dictKeys_dictErase (m k : ℕ) (d : List (ℕ × ℕ)) :
    m ∈ dictKeys (dictErase k d) ↔ m ∈ dictKeys d ∧ m ≠ k := by
  simp only [mem_dictKeys, mem_dictErase]
  constructor
  · rintro ⟨v, hv, hne⟩
    exact ⟨⟨v, hv⟩, hne⟩
  · rintro ⟨⟨v, hv⟩, hne⟩
    exact ⟨v, hv, hne⟩

theorem dictKeys_dictErase_sublist (k : ℕ) (d : List (ℕ × ℕ)) :
    List.Sublist (dictKeys (dictErase k d)) (dictKeys d) :=
  List.Sublist.map Prod.fst (List.filter_sublist d)

theorem dictLookup_dictErase (m k : ℕ) (d : List (ℕ × ℕ)) :
    dictLookup m (dictErase k d)
      = if m = k then none else dictLookup m d := by
  induction d with
  | nil => simp [dictErase, dictLookup]
  | cons p rest ih =>
    by_cases hp : p.1 = k
    · have he : dictErase k (p :: rest) = dictErase k rest := by
        unfold dictErase
        rw [List.filter_cons_of_neg (by simp [hp])]
      rcases eq_or_ne m k with h | h
      · subst h
        rw [he, ih, if_pos rfl, if_pos rfl]
      · rw [he, ih, if_neg h, if_neg h]
        simp only [dictLookup]
        rw [if_neg (fun hh : p.1 = m => h (hp ▸ hh).symm)]
    · have he : dictErase k (p :: rest) = p :: dictErase k rest := by
        unfold dictErase
        rw [List.filter_cons_of_pos (by simp [hp])]
      rcases eq_or_ne m k with h | h
      · subst h
        rw [he]
        simp only [dictLookup]
        rw [if_neg hp, ih]
        simp
      · rw [he]
        simp only [dictLookup]
        rw [ih, if_neg h, if_neg h]

/-
  Folded dictionary operations, as used by `CountermeasureAgent.step`.
-/

theorem mem_foldl_dictErase (q : ℕ × ℕ) (ks : List ℕ) (d : List (ℕ × ℕ)) :
    q ∈ ks.foldl (fun acc j => dictErase j acc) d ↔ q ∈ d ∧ q.1 ∉ ks := by
  induction ks generalizing d with
  | nil => simp
  | cons k ks ih =>
    rw [List.foldl_cons, ih, mem_dictErase]
    simp only [List.mem_cons]
    tauto

theorem dictLookup_foldl_dictErase (m : ℕ) (ks : List ℕ) (d : List (ℕ × ℕ)) :
    dictLookup m (ks.foldl (fun acc j => dictErase j acc) d)
      = if m ∈ ks then none else dictLookup m d := by
  induction ks generalizing d with
  | nil => simp
  | cons k ks ih =>
    rw [List.foldl_cons, ih, dictLookup_dictErase]
    by_cases h1 : m ∈ ks <;> by_cases h2 : m = k <;>
      simp [h1, h2, List.mem_cons]

theorem foldl_dictErase_keys_sublist (ks : List ℕ) (d : List (ℕ × ℕ)) :
    List.Sublist (dictKeys (ks.foldl (fun acc j => dictErase j acc) d))
      (dictKeys d) := by
  induction ks generalizing d with
  | nil => exact List.Sublist.refl _
  | cons k ks ih =>
    exact (ih (dictErase k d)).trans (dictKeys_dictErase_sublist k d)

theorem mem_dictKeys_foldl_dictInsert (m t : ℕ) (ks : List ℕ)
    (d : List (ℕ × ℕ)) :
    m ∈ dictKeys (ks.foldl (fun acc j => dictInsert j t acc) d)
      ↔ m ∈ ks ∨ m ∈ dictKeys d := by
  induction ks generalizing d with
  | nil => simp
  | cons k ks ih =>
    rw [List.foldl_cons, ih, mem_dictKeys_dictInsert]
    simp only [List.mem_cons]
    tauto

theorem nodup_dictKeys_foldl_dictInsert (t : ℕ) (ks : List ℕ)
    (d : List (ℕ × ℕ)) (h : (dictKeys d).Nodup) :
    (dictKeys (ks.foldl (fun acc j => dictInsert j t acc) d)).Nodup := by
  induction ks generalizing d with
  | nil => exact h
  | cons k ks ih => exact ih _ (nodup_dictKeys_dictInsert k t d h)

theorem dictLookup_foldl_dictInsert (m t : ℕ) (ks : List ℕ)
    (d : List (ℕ × ℕ)) :
    dictLookup m (ks.foldl (fun acc j => dictInsert j t acc) d)
      = if m ∈ ks then some t else dictLookup m d := by
  induction ks generalizing d with
  | nil => simp
  | cons k ks ih =>
    rw [List.foldl_cons, ih, dictLookup_dictInsert]
    by_cases h1 : m ∈ ks <;> by_cases h2 : m = k <;>
      simp [h1, h2, List.mem_cons]

/-
  Characterizations of `CountermeasureAgent.step` and
  `CountermeasureAgent.activate_countermeasure`.
-/

theorem step_deploys_mem (a : CountermeasureAgent) (cur m : ℕ) :
    m ∈ (a.step cur).2
      ↔ ∃ s, (m, s) ∈ a.pending_countermeasures ∧ s ≤ cur := by
  show m ∈ (a.pending_countermeasures.filter
      (fun p => cur ≥ p.2)).map Prod.fst ↔ _
  rw [List.mem_map]
  constructor
  · rintro ⟨p, hp, rfl⟩
    rw [List.mem_filter] at hp
    exact ⟨p.2, hp.1, by simpa using hp.2⟩
  · rintro ⟨s, hmem, hle⟩
    exact ⟨(m, s), List.mem_filter.mpr ⟨hmem, by simpa using hle⟩, rfl⟩

theorem step_deploys_nodup (a : CountermeasureAgent) (cur : ℕ)
    (h : (dictKeys a.pending_countermeasures).Nodup) :
    (a.step cur).2.Nodup := by
  refine List.Nodup.sublist ?_ h
  exact List.Sublist.map Prod.fst (List.filter_sublist _)

theorem step_pending_mem (a : CountermeasureAgent) (cur : ℕ) (q : ℕ × ℕ) :
    q ∈ (a.step cur).1.pending_countermeasures
      ↔ q ∈ a.pending_countermeasures ∧ q.1 ∉ (a.step cur).2 :=
  mem_foldl_dictErase q _ a.pending_countermeasures

theorem step_pending_lookup (a : CountermeasureAgent) (cur m : ℕ) :
    dictLookup m (a.step cur).1.pending_countermeasures
      = if m ∈ (a.step cur).2 then none
        else dictLookup m a.pending_countermeasures :=
  dictLookup_foldl_dictErase m _ a.pending_countermeasures

theorem step_pending_nodup (a : CountermeasureAgent) (cur : ℕ)
    (h : (dictKeys a.pending_countermeasures).Nodup) :
    (dictKeys (a.step cur).1.pending_countermeasures).Nodup :=
  List.Nodup.sublist
    (foldl_dictErase_keys_sublist _ a.pending_countermeasures) h

theorem step_active_keys_mem (a : CountermeasureAgent) (cur m : ℕ) :
    m ∈ dictKeys (a.step cur).1.active_countermeasures
      ↔ m ∈ (a.step cur).2 ∨ m ∈ dictKeys a.active_countermeasures :=
  mem_dictKeys_foldl_dictInsert m cur _ a.active_countermeasures

theorem step_active_lookup (a : CountermeasureAgent) (cur m : ℕ) :
    dictLookup m (a.step cur).1.active_countermeasures
      = if m ∈ (a.step cur).2 then some cur
        else dictLookup m a.active_countermeasures :=
  dictLookup_foldl_dictInsert m cur _ a.active_countermeasures

theorem step_active_nodup (a : CountermeasureAgent) (cur : ℕ)
    (h : (dictKeys a.active_countermeasures).Nodup) :
    (dictKeys (a.step cur).1.active_countermeasures).Nodup :=
  nodup_dictKeys_foldl_dictInsert cur _ a.active_countermeasures h

theorem step_deploy_iff_of_lookup (a : CountermeasureAgent) (cur m s : ℕ)
    (hnd : (dictKeys a.pending_countermeasures).Nodup)
    (hl : dictLookup m a.pending_countermeasures = some s) :
    m ∈ (a.step cur).2 ↔ s ≤ cur := by
  rw [step_deploys_mem]
  constructor
  · rintro ⟨s', hmem, hle⟩
    have := dictLookup_eq_some_of_mem_nodup m s' _ hnd hmem
    rw [hl] at this
    injection this with h2
    exact h2 ▸ hle
  · intro hle
    exact ⟨s, mem_of_dictLookup_eq_some m s _ hl, hle⟩

theorem activate_fact_check (a : CountermeasureAgent) (m t : ℕ)
    (h : a.type = "fact_check") :
    (a.activate_countermeasure m t).1.pending_countermeasures
        = dictInsert m (t + a.delay.getD 0) a.pending_countermeasures
    ∧ (a.activate_countermeasure m t).1.active_countermeasures
        = a.active_countermeasures
    ∧ (a.activate_countermeasure m t).2 = [] := by
  unfold CountermeasureAgent.activate_countermeasure
  rw [if_pos h]
  exact ⟨rfl, rfl, rfl⟩

theorem activate_other (a : CountermeasureAgent) (m t : ℕ)
    (h : ¬ a.type = "fact_check") :
    (a.activate_countermeasure m t).1.pending_countermeasures
        = a.pending_countermeasures
    ∧ (a.activate_countermeasure m t).1.active_countermeasures
        = dictInsert m t a.active_countermeasures
    ∧ (a.activate_countermeasure m t).2 = [m] := by
  unfold CountermeasureAgent.activate_countermeasure
  rw [if_neg h]
  exact ⟨rfl, rfl, rfl⟩

/-
  Controller invariant preservation and trace reasoning.
-/

theorem init_fields (countermeasure_type : String) (settings : CMSettings) :
    (CountermeasureAgent.init countermeasure_type settings).type
        = countermeasure_type
    ∧ (CountermeasureAgent.init countermeasure_type settings).pending_countermeasures = []
    ∧ (CountermeasureAgent.init countermeasure_type settings).active_countermeasures = [] := by
  unfold CountermeasureAgent.init
  split_ifs <;> exact ⟨rfl, rfl, rfl⟩

theorem init_fact_check_delay (settings : CMSettings) :
    (CountermeasureAgent.init "fact_check" settings).delay
      = some (settings.delay.getD 30) := by
  unfold CountermeasureAgent.init
  rw [if_neg (by decide : ¬("fact_check" = "key_node")), if_pos rfl]

theorem CMInv_step (a : CountermeasureAgent) (dep : List ℕ) (cur : ℕ)
    (h : CMInv a dep) : CMInv (a.step cur).1 (dep ++ (a.step cur).2) := by
  obtain ⟨hp, ha, hdisj, hdep, hsub⟩ := h
  have hdeploy_pending : ∀ m ∈ (a.step cur).2,
      m ∈ dictKeys a.pending_countermeasures := by
    intro m hm
    rcases (step_deploys_mem a cur m).mp hm with ⟨s, hmem, _⟩
    exact (mem_dictKeys m _).mpr ⟨s, hmem⟩
  refine ⟨step_pending_nodup a cur hp, step_active_nodup a cur ha, ?_, ?_, ?_⟩
  · intro m hm
    rcases (mem_dictKeys m _).mp hm with ⟨v, hv⟩
    rcases (step_pending_mem a cur (m, v)).mp hv with ⟨hv2, hnd⟩
    rw [step_active_keys_mem]
    rintro (hc | hc)
    · exact hnd hc
    · exact hdisj m ((mem_dictKeys m _).mpr ⟨v, hv2⟩) hc
  · rw [List.nodup_append]
    refine ⟨hdep, step_deploys_nodup a cur hp, ?_⟩
    intro m hm hm2
    exact hdisj m (hdeploy_pending m hm2) (hsub m hm)
  · intro m hm
    rw [step_active_keys_mem]
    rcases List.mem_append.mp hm with hm | hm
    · exact Or.inr (hsub m hm)
    · exact Or.inl hm

theorem CMInv_activate (a : CountermeasureAgent) (dep : List ℕ) (m t : ℕ)
    (h : CMInv a dep)
    (hm1 : m ∉ dictKeys a.pending_countermeasures)
    (hm2 : m ∉ dictKeys a.active_countermeasures) :
    CMInv (a.activate_countermeasure m t).1
      (dep ++ (a.activate_countermeasure m t).2) := by
  obtain ⟨hp, ha, hdisj, hdep, hsub⟩ := h
  by_cases ht : a.type = "fact_check"
  · obtain ⟨e1, e2, e3⟩ := activate_fact_check a m t ht
    unfold CMInv
    rw [e1, e2, e3, List.append_nil]
    refine ⟨nodup_dictKeys_dictInsert _ _ _ hp, ha, ?_, hdep, hsub⟩
    intro x hx
    rcases (mem_dictKeys_dictInsert x m _ _).mp hx with rfl | hx
    · exact hm2
    · exact hdisj x hx
  · obtain ⟨e1, e2, e3⟩ := activate_other a m t ht
    unfold CMInv
    rw [e1, e2, e3]
    refine ⟨hp, nodup_dictKeys_dictInsert _ _ _ ha, ?_, ?_, ?_⟩
    · intro x hx
      rw [mem_dictKeys_dictInsert]
      rintro (rfl | hc)
      · exact hm1 hx
      · exact hdisj x hx hc
    · rw [List.nodup_append]
      refine ⟨hdep, List.nodup_singleton m, ?_⟩
      intro x hx hx2
      rcases List.mem_singleton.mp hx2 with rfl
      exact hm2 (hsub x hx)
    · intro x hx
      rw [mem_dictKeys_dictInsert]
      rcases List.mem_append.mp hx with hx | hx
      · exact Or.inr (hsub x hx)
      · exact Or.inl (List.mem_singleton.mp hx)

theorem CMInv_cmRun (ops : List CMOp) :
    ∀ (a : CountermeasureAgent) (dep : List ℕ),
      CMInv a dep → legalTrace a ops = true →
      CMInv (cmRun a dep ops).1 (cmRun a dep ops).2 := by
  induction ops with
  | nil => intro a dep h _; exact h
  | cons op rest ih =>
    intro a dep h hleg
    simp only [legalTrace, Bool.and_eq_true] at hleg
    rw [cmRun]
    cases op with
    | activate m t =>
      refine ih _ _ ?_ hleg.2
      have hcond := hleg.1
      simp only [Bool.and_eq_true, Bool.not_eq_true', decide_eq_false_iff_not] at hcond
      exact CMInv_activate a dep m t h hcond.1 hcond.2
    | tick t =>
      exact ih _ _ (CMInv_step a dep t h) hleg.2

theorem stepsRun_no_deploy (ts : List ℕ) :
    ∀ (a : CountermeasureAgent) (m : ℕ),
      m ∉ dictKeys a.pending_countermeasures →
      ∀ u i, (u, i) ∈ (stepsRun a ts).2 → i ≠ m := by
  induction ts with
  | nil =>
    intro a m _ u i hmem
    simp [stepsRun] at hmem
  | cons t ts ih =>
    intro a m hm u i hmem
    rw [stepsRun] at hmem
    rcases List.mem_append.mp hmem with hmem | hmem
    · rcases List.mem_map.mp hmem with ⟨j, hj, he⟩
      injection he with h1 h2
      intro him
      rw [h2, him] at hj
      rcases (step_deploys_mem a t m).mp hj with ⟨s, hmem2, _⟩
      exact hm ((mem_dictKeys m _).mpr ⟨s, hmem2⟩)
    · refine ih (a.step t).1 m ?_ u i hmem
      intro hc
      rcases (mem_dictKeys m _).mp hc with ⟨v, hv⟩
      rcases (step_pending_mem a t (m, v)).mp hv with ⟨hv2, _⟩
      exact hm ((mem_dictKeys m _).mpr ⟨v, hv2⟩)

theorem stepsRun_deploy_ge (ts : List ℕ) :
    ∀ (a : CountermeasureAgent) (m s : ℕ),
      (dictKeys a.pending_countermeasures).Nodup →
      dictLookup m a.pending_countermeasures = some s →
      ∀ u, (u, m) ∈ (stepsRun a ts).2 → s ≤ u := by
  induction ts with
  | nil =>
    intro a m s _ _ u hmem
    simp [stepsRun] at hmem
  | cons t ts ih =>
    intro a m s hnd hl u hmem
    rw [stepsRun] at hmem
    rcases List.mem_append.mp hmem with hmem | hmem
    · rcases List.mem_map.mp hmem with ⟨j, hj, he⟩
      injection he with h1 h2
      rw [h2] at hj
      rw [← h1]
      exact (step_deploy_iff_of_lookup a t m s hnd hl).mp hj
    · by_cases hdepm : m ∈ (a.step t).2
      · have hnp : m ∉ dictKeys (a.step t).1.pending_countermeasures := by
          rw [← dictLookup_eq_none, step_pending_lookup, if_pos hdepm]
        exact absurd rfl (stepsRun_no_deploy ts (a.step t).1 m hnp u m hmem)
      · have hl' : dictLookup m (a.step t).1.pending_countermeasures = some s := by
          rw [step_pending_lookup, if_neg hdepm]
          exact hl
        exact ih (a.step t).1 m s (step_pending_nodup a t hnd) hl' u hmem

/-- C2: for a fact_check controller, `activate_countermeasure m t` sets
`pending[m] = t + delay` without an immediate deploy; the per-tick `step`
deploys `m` (moving it from pending to active) exactly when the model tick
has reached the scheduled tick, so any deployment of `m` across any sequence
of later ticks happens at a tick `≥ t + delay`, never earlier. -/
theorem fact_check_delayed_activation (settings : CMSettings) (d m t : ℕ)
    (a0 a1 : CountermeasureAgent) (ts : List ℕ)
    (hd : settings.delay = some d)
    (h0 : a0 = CountermeasureAgent.init "fact_check" settings)
    (h1 : a1 = (a0.activate_countermeasure m t).1) :
    (a0.activate_countermeasure m t).2 = []
    ∧ dictLookup m a1.pending_countermeasures = some (t + d)
    ∧ (∀ cur, m ∈ (a1.step cur).2 ↔ t + d ≤ cur)
    ∧ (∀ cur, t + d ≤ cur →
        dictLookup m (a1.step cur).1.active_countermeasures = some cur
        ∧ m ∉ dictKeys (a1.step cur).1.pending_countermeasures)
    ∧ (∀ u, (u, m) ∈ (stepsRun a1 ts).2 → t + d ≤ u) := by
  subst h0
  have htype := (init_fields "fact_check" settings).1
  have hpend := (init_fields "fact_check" settings).2.1
  obtain ⟨e1, _, e3⟩ :=
    activate_fact_check (CountermeasureAgent.init "fact_check" settings) m t htype
  have hdel : (CountermeasureAgent.init "fact_check" settings).delay.getD 0 = d := by
    rw [init_fact_check_delay, hd]
    rfl
  have hpend1 : a1.pending_countermeasures = [(m, t + d)] := by
    rw [h1, e1, hpend, hdel]
    rfl
  have hnd : (dictKeys a1.pending_countermeasures).Nodup := by
    rw [hpend1]
    simp [dictKeys]
  have hlook : dictLookup m a1.pending_countermeasures = some (t + d) := by
    rw [hpend1]
    simp [dictLookup]
  have hiff : ∀ cur, m ∈ (a1.step cur).2 ↔ t + d ≤ cur := fun cur =>
    step_deploy_iff_of_lookup a1 cur m (t + d) hnd hlook
  refine ⟨e3, hlook, hiff, ?_, ?_⟩
  · intro cur hcur
    have hmem := (hiff cur).mpr hcur
    constructor
    · rw [step_active_lookup, if_pos hmem]
    · rw [← dictLookup_eq_none, step_pending_lookup, if_pos hmem]
  · intro u hu
    exact stepsRun_deploy_ge ts a1 m (t + d) hnd hlook u hu

/-- C2 witness: threshold trigger at tick 4 with delay 5 schedules the
deployment for tick 9; at tick 8 the item is still pending and at tick 9 it
is deployed and recorded active. -/
theorem fact_check_delayed_activation_witness :
    ((CountermeasureAgent.init "fact_check" ⟨none, none, some 5, none⟩).activate_countermeasure 7 4).2 = []
    ∧ dictLookup 7 ((CountermeasureAgent.init "fact_check" ⟨none, none, some 5, none⟩).activate_countermeasure 7 4).1.pending_countermeasures = some 9
    ∧ (7 ∈ (CountermeasureAgent.step ((CountermeasureAgent.init "fact_check" ⟨none, none, some 5, none⟩).activate_countermeasure 7 4).1 8).2 ↔ 9 ≤ 8)
    ∧ (7 ∈ (CountermeasureAgent.step ((CountermeasureAgent.init "fact_check" ⟨none, none, some 5, none⟩).activate_countermeasure 7 4).1 9).2 ↔ 9 ≤ 9)
    ∧ dictLookup 7 (CountermeasureAgent.step ((CountermeasureAgent.init "fact_check" ⟨none, none, some 5, none⟩).activate_countermeasure 7 4).1 9).1.active_countermeasures = some 9
    ∧ 7 ∉ dictKeys (CountermeasureAgent.step ((CountermeasureAgent.init "fact_check" ⟨none, none, some 5, none⟩).activate_countermeasure 7 4).1 9).1.pending_countermeasures := by
  have h := fact_check_delayed_activation ⟨none, none, some 5, none⟩ 5 7 4 _ _ []
    rfl rfl rfl
  exact ⟨h.1, h.2.1, by rw [show (4:ℕ) + 5 = 9 from rfl] at h; exact h.2.2.1 8,
    by rw [show (4:ℕ) + 5 = 9 from rfl] at h; exact h.2.2.1 9,
    (h.2.2.2.1 9 (by decide)).1, (h.2.2.2.1 9 (by decide)).2⟩

/-- C5 counterexample: over an unrestricted call sequence the claim fails.
Re-triggering `activate_countermeasure` for an id the fact_check controller
has already moved to active puts the id back in pending while it stays
active, and a later `step` deploys it a second time. -/
theorem cm_pending_active_overlap_cex :
    (0 ∈ dictKeys (cmRun (CountermeasureAgent.init "fact_check" {}) []
        [CMOp.activate 0 0, CMOp.tick 30, CMOp.activate 0 1]).1.pending_countermeasures
      ∧ 0 ∈ dictKeys (cmRun (CountermeasureAgent.init "fact_check" {}) []
        [CMOp.activate 0 0, CMOp.tick 30, CMOp.activate 0 1]).1.active_countermeasures)
    ∧ List.count 0 (cmRun (CountermeasureAgent.init "fact_check" {}) []
        [CMOp.activate 0 0, CMOp.tick 30, CMOp.activate 0 1, CMOp.tick 31]).2 = 2 := by
  decide

/-- C5 (amended): provided `activate_countermeasure` is only ever invoked
for an id that is neither pending nor active on that controller (the trigger
discipline the engine is specified to enforce), then after any such
sequence of activate and step calls no id is a key of both pending and
active, and no id is deployed twice. -/
theorem cm_legal_traces_no_overlap_no_redeploy
    (countermeasure_type : String) (settings : CMSettings) (ops : List CMOp)
    (hleg : legalTrace (CountermeasureAgent.init countermeasure_type settings)
        ops = true) :
    (∀ m ∈ dictKeys (cmRun (CountermeasureAgent.init countermeasure_type settings)
          [] ops).1.pending_countermeasures,
        m ∉ dictKeys (cmRun (CountermeasureAgent.init countermeasure_type settings)
          [] ops).1.active_countermeasures)
    ∧ ∀ m, List.count m (cmRun (CountermeasureAgent.init countermeasure_type settings)
        [] ops).2 ≤ 1 := by
  have hinv0 : CMInv (CountermeasureAgent.init countermeasure_type settings) [] := by
    obtain ⟨_, hpe, hae⟩ := init_fields countermeasure_type settings
    refine ⟨?_, ?_, ?_, List.nodup_nil, ?_⟩
    · rw [hpe]; exact List.nodup_nil
    · rw [hae]; exact List.nodup_nil
    · rw [hpe]; intro m hm; simp [dictKeys] at hm
    · intro m hm; simp at hm
  have hinv := CMInv_cmRun ops _ _ hinv0 hleg
  exact ⟨hinv.2.2.1, fun m => List.nodup_iff_count_le_one.mp hinv.2.2.2.1 m⟩

/-- C5 witness: the amended theorem applied to a legal trace of a fact_check
controller — one activation at tick 0, then ticks 30 and 31. -/
theorem cm_legal_traces_no_overlap_no_redeploy_witness :
    (∀ m ∈ dictKeys (cmRun (CountermeasureAgent.init "fact_check" {}) []
          [CMOp.activate 0 0, CMOp.tick 30, CMOp.tick 31]).1.pending_countermeasures,
        m ∉ dictKeys (cmRun (CountermeasureAgent.init "fact_check" {}) []
          [CMOp.activate 0 0, CMOp.tick 30, CMOp.tick 31]).1.active_countermeasures)
    ∧ ∀ m, List.count m (cmRun (CountermeasureAgent.init "fact_check" {}) []
        [CMOp.activate 0 0, CMOp.tick 30, CMOp.tick 31]).2 ≤ 1 :=
  cm_legal_traces_no_overlap_no_redeploy "fact_check" {}
    [CMOp.activate 0 0, CMOp.tick 30, CMOp.tick 31] (by decide)

/-- C9 counterexample: constructing a `CountermeasureAgent` with an unknown
countermeasure type does not fail — it succeeds and yields an agent whose
type-specific threshold parameters are all absent. -/
theorem cm_init_unknown_type_cex :
    CountermeasureAgent.init "content_moderation" {} =
      { type := "content_moderation", activation_threshold := none,
        target_threshold := none, delay := none, coverage_ratio := none,
        active_countermeasures := [], pending_countermeasures := [] } := by
  decide

/-- C9 (amended): constructing a `CountermeasureAgent` with a type other
than the three known ones is not a construction-time error: it produces an
agent recording the unknown type with none of the type-specific threshold
parameters set (an error could only surface later, when such an attribute is
read). -/
theorem cm_init_unknown_type_no_params (countermeasure_type : String)
    (settings : CMSettings)
    (h1 : countermeasure_type ≠ "key_node")
    (h2 : countermeasure_type ≠ "fact_check")
    (h3 : countermeasure_type ≠ "early_warning") :
    (CountermeasureAgent.init countermeasure_type settings).type
        = countermeasure_type
    ∧ (CountermeasureAgent.init countermeasure_type settings).activation_threshold = none
    ∧ (CountermeasureAgent.init countermeasure_type settings).target_threshold = none
    ∧ (CountermeasureAgent.init countermeasure_type settings).delay = none
    ∧ CountermeasureAgent.coverage_ratio
        (CountermeasureAgent.init countermeasure_type settings) = none
    ∧ (CountermeasureAgent.init countermeasure_type settings).active_countermeasures = []
    ∧ (CountermeasureAgent.init countermeasure_type settings).pending_countermeasures = [] := by
  unfold CountermeasureAgent.init
  rw [if_neg h1, if_neg h2, if_neg h3]
  exact ⟨rfl, rfl, rfl, rfl, rfl, rfl, rfl⟩

/-- C9 witness: the amended theorem applied to the unknown type
"content_moderation". -/
theorem cm_init_unknown_type_no_params_witness :
    (CountermeasureAgent.init "content_moderation" {}).type = "content_moderation"
    ∧ (CountermeasureAgent.init "content_moderation" {}).activation_threshold = none
    ∧ (CountermeasureAgent.init "content_moderation" {}).target_threshold = none
    ∧ (CountermeasureAgent.init "content_moderation" {}).delay = none
    ∧ CountermeasureAgent.coverage_ratio
        (CountermeasureAgent.init "content_moderation" {}) = none
    ∧ (CountermeasureAgent.init "content_moderation" {}).active_countermeasures = []
    ∧ (CountermeasureAgent.init "content_moderation" {}).pending_countermeasures = [] :=
  cm_init_unknown_type_no_params "content_moderation" {}
    (by decide) (by decide) (by decide)

/-
  Schedule and dispatch lemmas (src/model.py).
-/

theorem int_tdiv_60_mono (a b : ℤ) (ha : 0 ≤ a) (hab : a ≤ b) :
    Int.tdiv a 60 ≤ Int.tdiv b 60 := by
  rw [Int.tdiv_eq_ediv ha (by norm_num),
    Int.tdiv_eq_ediv (le_trans ha hab) (by norm_num)]
  exact Int.ediv_le_ediv (by norm_num) hab

theorem model_step_dispatch_count (cur : ℤ) (e : ℤ × TweetRec)
    (sched : List (ℤ × TweetRec)) :
    (e.1 ≤ cur →
      List.count e (model_step_dispatch cur sched).1 = List.count e sched
      ∧ List.count e (model_step_dispatch cur sched).2 = 0)
    ∧ (¬ e.1 ≤ cur →
      List.count e (model_step_dispatch cur sched).1 = 0
      ∧ List.count e (model_step_dispatch cur sched).2 = List.count e sched) := by
  induction sched with
  | nil => exact ⟨fun _ => ⟨rfl, rfl⟩, fun _ => ⟨rfl, rfl⟩⟩
  | cons f rest ih =>
    by_cases hf : f.1 ≤ cur
    · rw [model_step_dispatch, if_pos hf]
      constructor
      · intro he
        refine ⟨?_, (ih.1 he).2⟩
        show List.count e (f :: (model_step_dispatch cur rest).1)
            = List.count e (f :: rest)
        rw [List.count_cons, List.count_cons, (ih.1 he).1]
      · intro he
        have hef : e ≠ f := fun h => he (h ▸ hf)
        refine ⟨?_, ?_⟩
        · show List.count e (f :: (model_step_dispatch cur rest).1) = 0
          rw [List.count_cons, (ih.2 he).1]
          simp [hef, Ne.symm hef]
        · show List.count e (model_step_dispatch cur rest).2
              = List.count e (f :: rest)
          rw [(ih.2 he).2, List.count_cons]
          simp [hef, Ne.symm hef]
    · rw [model_step_dispatch, if_neg hf]
      constructor
      · intro he
        have hef : e ≠ f := fun h => hf (h ▸ he)
        refine ⟨?_, ?_⟩
        · show List.count e (model_step_dispatch cur rest).1
              = List.count e (f :: rest)
          rw [(ih.1 he).1, List.count_cons]
          simp [hef, Ne.symm hef]
        · show List.count e (f :: (model_step_dispatch cur rest).2) = 0
          rw [List.count_cons, (ih.1 he).2]
          simp [hef, Ne.symm hef]
      · intro he
        refine ⟨(ih.2 he).1, ?_⟩
        show List.count e (f :: (model_step_dispatch cur rest).2)
            = List.count e (f :: rest)
        rw [List.count_cons, List.count_cons, (ih.2 he).2]

theorem model_step_dispatch_sublists (cur : ℤ) (sched : List (ℤ × TweetRec)) :
    List.Sublist (model_step_dispatch cur sched).1 sched
    ∧ List.Sublist (model_step_dispatch cur sched).2 sched := by
  induction sched with
  | nil => exact ⟨List.Sublist.refl [], List.Sublist.refl []⟩
  | cons f rest ih =>
    by_cases hf : f.1 ≤ cur
    · rw [model_step_dispatch, if_pos hf]
      exact ⟨List.Sublist.cons₂ f ih.1, List.Sublist.cons f ih.2⟩
    · rw [model_step_dispatch, if_neg hf]
      exact ⟨List.Sublist.cons f ih.1, List.Sublist.cons₂ f ih.2⟩

theorem schedule_tweets_ticks_sorted (timeline : List TweetRec)
    (hnn : ∀ tw ∈ timeline, 0 ≤ tw.time_since_start) :
    List.Sorted (· ≤ ·) ((schedule_tweets timeline).map Prod.fst) := by
  unfold schedule_tweets
  rw [List.map_map]
  have hsorted : List.Sorted tweetLE (List.insertionSort tweetLE timeline) :=
    List.sorted_insertionSort tweetLE timeline
  have hmem : ∀ tw ∈ List.insertionSort tweetLE timeline,
      0 ≤ tw.time_since_start := by
    intro tw htw
    exact hnn tw ((List.perm_insertionSort tweetLE timeline).mem_iff.mp htw)
  rw [List.Sorted, List.pairwise_map]
  refine List.Pairwise.imp_of_mem ?_ hsorted
  intro a b ha hb hab
  exact int_tdiv_60_mono a.time_since_start b.time_since_start
    (hmem a ha) hab

/-- C6: in a call of the engine step's dispatch loop, every scheduled record
whose tick is `≤` the current tick is dispatched exactly once (per occurrence)
and removed from the schedule, never to be re-dispatched, while every later
record is kept untouched; and dispatch happens in non-decreasing tick order:
the schedule built by `_schedule_tweets` is sorted by `time_since_start`, its
tick sequence is sorted, and both the dispatched and the remaining lists
inherit sortedness. -/
theorem model_step_dispatch_exactly_once (cur : ℤ)
    (sched : List (ℤ × TweetRec)) :
    (∀ e : ℤ × TweetRec,
      (e.1 ≤ cur →
        List.count e (model_step_dispatch cur sched).1 = List.count e sched
        ∧ List.count e (model_step_dispatch cur sched).2 = 0)
      ∧ (¬ e.1 ≤ cur →
        List.count e (model_step_dispatch cur sched).1 = 0
        ∧ List.count e (model_step_dispatch cur sched).2 = List.count e sched))
    ∧ (List.Sorted (· ≤ ·) (sched.map Prod.fst) →
        List.Sorted (· ≤ ·) ((model_step_dispatch cur sched).1.map Prod.fst)
        ∧ List.Sorted (· ≤ ·) ((model_step_dispatch cur sched).2.map Prod.fst))
    ∧ (∀ timeline : List TweetRec,
        (∀ tw ∈ timeline, 0 ≤ tw.time_since_start) →
        List.Sorted (· ≤ ·) ((schedule_tweets timeline).map Prod.fst)) := by
  refine ⟨fun e => model_step_dispatch_count cur e sched, ?_, ?_⟩
  · intro hsorted
    obtain ⟨h1, h2⟩ := model_step_dispatch_sublists cur sched
    exact ⟨List.Pairwise.sublist (List.Sublist.map Prod.fst h1) hsorted,
      List.Pairwise.sublist (List.Sublist.map Prod.fst h2) hsorted⟩
  · exact schedule_tweets_ticks_sorted

/-- C6 witness: a two-record schedule at tick 1 — the due record is
dispatched exactly once and removed, the future record stays; sortedness is
preserved, and a concrete timeline yields a sorted tick sequence. -/
theorem model_step_dispatch_exactly_once_witness :
    (List.count ((0 : ℤ), (⟨0, 1⟩ : TweetRec))
        (model_step_dispatch 1 [(0, ⟨0, 1⟩), (2, ⟨150, 2⟩)]).1
      = List.count ((0 : ℤ), (⟨0, 1⟩ : TweetRec)) [(0, ⟨0, 1⟩), (2, ⟨150, 2⟩)]
    ∧ List.count ((0 : ℤ), (⟨0, 1⟩ : TweetRec))
        (model_step_dispatch 1 [(0, ⟨0, 1⟩), (2, ⟨150, 2⟩)]).2 = 0)
    ∧ (List.count ((2 : ℤ), (⟨150, 2⟩ : TweetRec))
        (model_step_dispatch 1 [(0, ⟨0, 1⟩), (2, ⟨150, 2⟩)]).1 = 0
    ∧ List.count ((2 : ℤ), (⟨150, 2⟩ : TweetRec))
        (model_step_dispatch 1 [(0, ⟨0, 1⟩), (2, ⟨150, 2⟩)]).2
      = List.count ((2 : ℤ), (⟨150, 2⟩ : TweetRec)) [(0, ⟨0, 1⟩), (2, ⟨150, 2⟩)])
    ∧ (List.Sorted (· ≤ ·)
        ((model_step_dispatch 1 [((0 : ℤ), (⟨0, 1⟩ : TweetRec)), (2, ⟨150, 2⟩)]).1.map Prod.fst)
    ∧ List.Sorted (· ≤ ·)
        ((model_step_dispatch 1 [((0 : ℤ), (⟨0, 1⟩ : TweetRec)), (2, ⟨150, 2⟩)]).2.map Prod.fst))
    ∧ List.Sorted (· ≤ ·)
        ((schedule_tweets [⟨150, 2⟩, ⟨0, 1⟩]).map Prod.fst) := by
  have h := model_step_dispatch_exactly_once 1 [(0, ⟨0, 1⟩), (2, ⟨150, 2⟩)]
  exact ⟨(h.1 (0, ⟨0, 1⟩)).1 (by decide),
    (h.1 (2, ⟨150, 2⟩)).2 (by decide),
    h.2.1 (by decide),
    h.2.2 [⟨150, 2⟩, ⟨0, 1⟩] (by decide)⟩

/-- C8: `_schedule_tweets` schedules each timeline record at tick
`int(time_since_start / 60)` with the default `time_unit = 60`; for
non-negative `s` seconds this truncating division is the floor,
`60 * tick ≤ s < 60 * tick + 60`, so every record with `0 ≤ s < 60` lands
on tick 0. -/
theorem schedule_tick_quantization :
    (∀ (timeline : List TweetRec) (tw : TweetRec), tw ∈ timeline →
      (Int.tdiv tw.time_since_start 60, tw) ∈ schedule_tweets timeline)
    ∧ (∀ s : ℤ, 0 ≤ s →
        60 * Int.tdiv s 60 ≤ s ∧ s < 60 * Int.tdiv s 60 + 60
        ∧ (s < 60 → Int.tdiv s 60 = 0)) := by
  constructor
  · intro timeline tw htw
    unfold schedule_tweets
    refine List.mem_map.mpr ⟨tw, ?_, rfl⟩
    exact (List.perm_insertionSort tweetLE timeline).mem_iff.mpr htw
  · intro s hs
    rw [Int.tdiv_eq_ediv hs (by norm_num)]
    omega

/-- C8 witness: a record 59 seconds after the earliest time is scheduled at
tick 0. -/
theorem schedule_tick_quantization_witness :
    (Int.tdiv (TweetRec.time_since_start ⟨59, 1⟩) 60, (⟨59, 1⟩ : TweetRec))
        ∈ schedule_tweets [⟨59, 1⟩]
    ∧ (60 * Int.tdiv 59 60 ≤ (59 : ℤ) ∧ (59 : ℤ) < 60 * Int.tdiv 59 60 + 60
        ∧ ((59 : ℤ) < 60 → Int.tdiv 59 60 = 0)) :=
  ⟨schedule_tick_quantization.1 [⟨59, 1⟩] ⟨59, 1⟩ (by decide),
    schedule_tick_quantization.2 59 (by decide)⟩
